import Mathlib

/-!
Shallow embedding of the masonry widget-cruncher pass dispatcher
(`widget-cruncher/src/app_root.rs`), the `SizedBox` widget
(`widget-cruncher/src/widget/sized_box.rs`) and the mini reactive runtime
(`src/mini/reactive.rs`), together with theorems checking the repository's
natural-language specification against this embedding.

Machine floats appear only in `SizedBox::child_constraints`, which uses
nothing but `max`/`min` (order operations, exact on floats); coordinates are
embedded as rationals.  Hash maps keyed by ids are embedded as association
lists; a key occurs at most once in the states we build.
-/

namespace Masonry

/-! ## Association-list helpers (embedding of `HashMap` / `SlotMap` lookups) -/

/-- Lookup in an association list; embeds `HashMap::get` / `SlotMap::get`. -/
def alookup {α β : Type} [DecidableEq α] : List (α × β) → α → Option β
  | [], _ => none
  | (a, b) :: rest, x => if x = a then some b else alookup rest x

/-- Set a key to a value: replace the first binding if present, else append.
Embeds `HashMap::insert` / in-place mutation through `get_mut`. -/
def aset {α β : Type} [DecidableEq α] : List (α × β) → α → β → List (α × β)
  | [], x, b => [(x, b)]
  | (a, c) :: rest, x, b =>
    if x = a then (x, b) :: rest else (a, c) :: aset rest x b

/-! ## Geometry (rational embedding of `kurbo` floats) -/

/-- Embeds `kurbo::Size`; width and height as rationals. -/
structure Size where
  width : ℚ
  height : ℚ
  deriving DecidableEq

/-- Embeds `BoxConstraints` as used by `SizedBox::child_constraints`: a
min/max box.  Modelled from the spec: the `BoxConstraints` implementation is
not under `src/`; the spec describes it as "a min/max box constraint", so
`new` stores the two corners. -/
structure BoxConstraints where
  min : Size
  max : Size
  deriving DecidableEq

/-- Modelled from the spec: constructor storing the min/max box. -/
def BoxConstraints.new (min max : Size) : BoxConstraints := ⟨min, max⟩

/-! ## `SizedBox` (`widget-cruncher/src/widget/sized_box.rs`) -/

/-- Embeds the `SizedBox` widget's sizing fields; the optional child is not
consulted by `child_constraints` and is omitted. -/
structure SizedBox where
  width : Option ℚ
  height : Option ℚ

/-- Embeds `SizedBox::child_constraints`.  On an axis with a set dimension the
value is clamped into the parent's `[min, max]` range and that axis becomes
tight; an unset axis is passed through unchanged.
`width.max(bc.min().width).min(bc.max().width)` becomes
`min (max width bc.min.width) bc.max.width`. -/
def SizedBox.child_constraints (s : SizedBox) (bc : BoxConstraints) : BoxConstraints :=
  let wpair : ℚ × ℚ :=
    match s.width with
    | some width =>
      let w := min (max width bc.min.width) bc.max.width
      (w, w)
    | none => (bc.min.width, bc.max.width)
  let hpair : ℚ × ℚ :=
    match s.height with
    | some height =>
      let h := min (max height bc.min.height) bc.max.height
      (h, h)
    | none => (bc.min.height, bc.max.height)
  BoxConstraints.new ⟨wpair.1, hpair.1⟩ ⟨wpair.2, hpair.2⟩

/-! ## Window root: focus resolution and event routing
(`widget-cruncher/src/app_root.rs`) -/

/-- Embeds `WidgetId` (process-unique identifier). -/
abbrev WidgetId := Nat

/-- Embeds `TimerToken`. -/
abbrev TimerToken := Nat

/-- Embeds `TextFieldToken` (IME sessions). -/
abbrev TextFieldToken := Nat

/-- Embeds `FocusChange`: the four kinds of requested focus change. -/
inductive FocusChange where
  | resign
  | focus (id : WidgetId)
  | next
  | previous
  deriving DecidableEq

/-- Embeds `Handled` (yes/no answer returned to the platform driver). -/
inductive Handled where
  | yes
  | no
  deriving DecidableEq

/-- Embeds the subset of `Event` routed by `WindowRoot::event`'s two leading
`match`es; all remaining variants are collapsed into `other`. -/
inductive Event where
  | windowSize (s : Size)
  | mouseDown (pos : ℚ × ℚ)
  | mouseUp (pos : ℚ × ℚ)
  | mouseMove (pos : ℚ × ℚ)
  | wheel (pos : ℚ × ℚ)
  | internalMouseLeave
  | internalRouteTimer (token : TimerToken) (id : WidgetId)
  | timer (token : TimerToken)
  | windowConnected
  | other
  deriving DecidableEq

/-- Embeds the fields of `WindowRoot` consulted by focus resolution, timer
routing and derived-state updates.  `focus_chain` stands for
`self.root.state().focus_chain` (the ordered list built by
`BuildFocusChain`). -/
structure WindowRoot where
  focus : Option WidgetId
  focus_chain : List WidgetId
  ime_handlers : List (TextFieldToken × WidgetId)
  ime_focus_change : Option (Option TextFieldToken)
  timers : List (TimerToken × WidgetId)
  size : Size
  last_mouse_pos : Option (ℚ × ℚ)
  deriving DecidableEq

/-- Embeds `Iterator::position`: index of the first element satisfying the
closure `|id| id == &focus`. -/
def position (focus : WidgetId) : List WidgetId → Option Nat
  | [] => none
  | id :: rest => if id == focus then some 0 else (position focus rest).map (· + 1)

/-- Embeds `WindowRoot::widget_from_focus_chain`.  Note the leading
`self.focus.and_then`: when nothing is focused the result is `none`; the
first/last fallback applies only when a focused id is set but absent from the
chain.  The source indexes `self.focus_chain()[new_idx]` (in bounds because
`idx` came from `position`); embedded as `getD _ 0`. -/
def WindowRoot.widget_from_focus_chain (w : WindowRoot) (forward : Bool) : Option WidgetId :=
  w.focus.bind fun focus =>
    ((position focus w.focus_chain).map fun idx =>
      let len := w.focus_chain.length
      let new_idx := if forward then (idx + 1) % len else (idx + len - 1) % len
      w.focus_chain.getD new_idx 0).orElse
      fun _ => if forward then w.focus_chain.head? else w.focus_chain.getLast?

/-- Embeds `WindowRoot::widget_for_focus_request`. -/
def WindowRoot.widget_for_focus_request (w : WindowRoot) (focus : FocusChange) :
    Option WidgetId :=
  match focus with
  | .resign => none
  | .focus id => some id
  | .next => w.widget_from_focus_chain true
  | .previous => w.widget_from_focus_chain false

/-- Embeds `WindowRoot::update_focus`.  The `request_focus` argument stands
for `widget_state.request_focus.take()`; the returned option is the
`RouteFocusChanged { old, new }` lifecycle event dispatched through
`self.lifecycle`, or `none` when no event is dispatched. -/
def WindowRoot.update_focus (w : WindowRoot) (request_focus : Option FocusChange) :
    WindowRoot × Option (Option WidgetId × Option WidgetId) :=
  match request_focus with
  | none => (w, none)
  | some focus_req =>
    let old := w.focus
    let new := w.widget_for_focus_request focus_req
    -- Only send RouteFocusChanged in case there's actual change
    if old ≠ new then
      let old_was_ime :=
        match old with
        | some o => w.ime_handlers.any fun sesh => sesh.2 == o
        | none => false
      let maybe_active_text_field :=
        (w.ime_handlers.find? fun sesh => some sesh.2 == new).map fun sesh => sesh.1
      let ime_focus_change :=
        if maybe_active_text_field.isSome then some maybe_active_text_field
        else if old_was_ime then some none
        else none
      ({ w with focus := new, ime_focus_change := ime_focus_change }, some (old, new))
    else (w, none)

/-- Result of the routing prefix of `WindowRoot::event`: the window with
derived state updated, the (possibly rewritten) event delegated to the root
pod if any, whether an error was logged, and an early return value when the
method returns before delegating. -/
structure EventRouting where
  window : WindowRoot
  delivered : Option Event
  logged_error : Bool
  early_result : Option Handled
  deriving DecidableEq

/-- Embeds the routing prefix of `WindowRoot::event`: the unconditional
derived-state update (window size, last mouse position) followed by the
`Timer` rewrite.  Delegation to the root pod and the `WindowConnected`
lifecycle are abstracted into the `delivered` field. -/
def WindowRoot.handle_event (w : WindowRoot) (ev : Event) : EventRouting :=
  let w :=
    match ev with
    | .windowSize s => { w with size := s }
    | .mouseDown p | .mouseUp p | .mouseMove p | .wheel p =>
      { w with last_mouse_pos := some p }
    | .internalMouseLeave => { w with last_mouse_pos := none }
    | _ => w
  match ev with
  | .timer token =>
    match alookup w.timers token with
    | some widget_id =>
      { window := w, delivered := some (.internalRouteTimer token widget_id),
        logged_error := false, early_result := none }
    | none =>
      -- error!("No widget found for timer {:?}", token); return Handled::No
      { window := w, delivered := none, logged_error := true,
        early_result := some .no }
  | e =>
    { window := w, delivered := some e, logged_error := false, early_result := none }

/-! ## `update_widget` command application (`src/mini/reactive.rs`) -/

/-- Embeds a type-erased widget (`&mut dyn Any` plus the `type_name` carried
in `UpdateWidgetArgs`); `payload` abstracts the widget's data. -/
structure AnyWidget where
  ty : String
  payload : Nat
  deriving DecidableEq

/-- Outcome of applying an `update_widget` updater at command-drain time. -/
inductive UpdateOutcome where
  | panicked (msg : String)
  | applied (payload : Nat)
  deriving DecidableEq

/-- Embeds the updater closure built by `update_widget::<W>`: at drain time
the addressed widget is downcast to `W` (success iff the stored concrete type
is `W`); a mismatch is the `panic!` with the descriptive message, otherwise
the mutator `f` is invoked on the scoped mutable view. -/
def update_widget_apply (expected : String) (f : Nat → Nat) (w : AnyWidget) :
    UpdateOutcome :=
  if w.ty = expected then .applied (f w.payload)
  else
    .panicked ("expected to update widget with type `" ++ expected ++
      "`, but found `" ++ w.ty ++ "` in the widget tree")

/-! ## May-contain filter (`WindowRoot::may_contain_widget`)

The bloom filter lives in `WidgetState::children`; its implementation is not
under `src/`.  Modelled from the spec: "a fixed-size bit array with a few
hash functions ... false positives are acceptable, false negatives are not",
rebuilt wholesale over the window's descendants. -/

/-- Modelled from the spec: a fixed-size bit array, kept as a bitmask. -/
structure Bloom where
  bits : Nat
  deriving DecidableEq

/-- Modelled from the spec: the empty filter. -/
def Bloom.empty : Bloom := ⟨0⟩

/-- Modelled from the spec: the bits an id sets, one per hash function, in a
64-bit array. -/
def bloom_mask (hashes : List (WidgetId → Nat)) (id : WidgetId) : Nat :=
  hashes.foldl (fun acc h => acc ||| 2 ^ (h id % 64)) 0

/-- Modelled from the spec: inserting an id sets its bits. -/
def Bloom.add (hashes : List (WidgetId → Nat)) (b : Bloom) (id : WidgetId) : Bloom :=
  ⟨b.bits ||| bloom_mask hashes id⟩

/-- Modelled from the spec: membership test; true iff all of the id's bits
are set. -/
def Bloom.may_contain (hashes : List (WidgetId → Nat)) (b : Bloom) (id : WidgetId) :
    Bool :=
  b.bits &&& bloom_mask hashes id == bloom_mask hashes id

/-- Modelled from the spec: the filter rebuilt wholesale over a list of
descendant ids. -/
def bloom_of (hashes : List (WidgetId → Nat)) (ids : List WidgetId) : Bloom :=
  ids.foldl (Bloom.add hashes) Bloom.empty

/-- The window's tree as seen by `may_contain_widget`: the root id and the
ids of all (strict) descendants of the root. -/
structure WindowTree where
  root_id : WidgetId
  descendants : List WidgetId

/-- Embeds `WindowRoot::may_contain_widget`:
`widget_id == self.root.id() || self.root.state().children.may_contain(&widget_id)`,
with `children` the filter over the root's descendants. -/
def may_contain_widget (hashes : List (WidgetId → Nat)) (t : WindowTree)
    (widget_id : WidgetId) : Bool :=
  widget_id == t.root_id ||
    (bloom_of hashes t.descendants).may_contain hashes widget_id

/-! ## Reactive runtime (`src/mini/reactive.rs`)

State machine embedding of `Runtime` / `RwSignal` / `Effect`.  Signal values
(`Box<dyn Any>`) are embedded as integers.  Effect closures (`Box<dyn Fn()>`)
are embedded as straight-line programs over the runtime API: tracked reads
(`RwSignal::get`), writes (`RwSignal::set`), a branch on a read value (so an
effect can stop reading a signal on a later run), and `untrack`.  Execution
is fueled; `none` means fuel ran out or a `SlotMap` lookup `unwrap` panicked
(signals are never removed, so lookups succeed on states built by the API). -/

/-- Embeds `SignalKey`. -/
abbrev SignalKey := Nat

/-- Embeds `EffectId`. -/
abbrev EffectId := Nat

/-- Embeds the type-erased signal value. -/
abbrev Val := Int

/-- Embeds a `Signal` slot: the stored value and the subscribing effects
(the keys of the `HashMap<EffectId, Rc<Effect>>`; kept duplicate-free, as a
hash map's key set is). -/
structure SignalSt where
  value : Val
  subscribers : List EffectId
  deriving DecidableEq

/-- Embeds the mutable runtime state: the signal slot map, each effect's
`observers` vector (the signals it read, tracked, since its last run
started), and the `current_effect` slot. -/
structure St where
  signals : List (SignalKey × SignalSt)
  observers : List (EffectId × List SignalKey)
  current : Option EffectId
  deriving DecidableEq

/-- Deep embedding of effect closures as straight-line reactive programs. -/
inductive Prog where
  | nil
  | read (k : SignalKey) (rest : Prog)
  | write (k : SignalKey) (v : Val) (rest : Prog)
  | branch (k : SignalKey) (thn els : Prog)
  | untrack (inner rest : Prog)
  deriving DecidableEq

/-- Embeds the effect environment: each effect's immutable closure. -/
structure Env where
  body : EffectId → Prog

/-- The signals effect `e` read (tracked) since its last run started:
`effect.observers`. -/
def observersOf (st : St) (e : EffectId) : List SignalKey :=
  (alookup st.observers e).getD []

/-- The effects subscribed to signal `k`: `signal.subscribers` keys. -/
def subscribersOf (st : St) (k : SignalKey) : List EffectId :=
  ((alookup st.signals k).map SignalSt.subscribers).getD []

/-- Embeds `RwSignal::get`: look the signal up (`unwrap`), and if an effect
is current, push the key onto its `observers` and insert it into the
signal's `subscribers` (hash-map insert: no duplicate key); returns the
value. -/
def readSignal (k : SignalKey) (st : St) : Option (Val × St) :=
  match alookup st.signals k with
  | none => none
  | some sig =>
    match st.current with
    | none => some (sig.value, st)
    | some e =>
      let st1 := { st with observers := aset st.observers e (observersOf st e ++ [k]) }
      let subs := if e ∈ sig.subscribers then sig.subscribers else sig.subscribers ++ [e]
      some (sig.value, { st1 with signals := aset st1.signals k { sig with subscribers := subs } })

/-- Embeds the write in `RwSignal::set`:
`*signal.value.downcast_mut::<T>().unwrap() = new_value`. -/
def writeValue (k : SignalKey) (v : Val) (st : St) : St :=
  match alookup st.signals k with
  | none => st
  | some sig => { st with signals := aset st.signals k { sig with value := v } }

/-- Embeds one step of the removal loop in `Effect::run`:
`if let Some(signal) = signals.get_mut(observer) { signal.subscribers.remove(&self.id); }`. -/
def removeSub (e : EffectId) (st : St) (k : SignalKey) : St :=
  match alookup st.signals k with
  | none => st
  | some sig =>
    let sig' := { sig with subscribers := sig.subscribers.filter fun x => x != e }
    { st with signals := aset st.signals k sig' }

/-- Embeds the first block of `Effect::run`: remove the effect from the
subscribers of every signal it observed, draining its `observers`. -/
def clearSubscriptions (e : EffectId) (st : St) : St :=
  let st1 := (observersOf st e).foldl (removeSub e) st
  { st1 with observers := aset st1.observers e [] }

mutual

/-- Embeds running an effect closure.  Fuel decreases on every recursive
call; `none` is fuel exhaustion or a panicking lookup. -/
def execProg : Nat → Env → Prog → St → Option St
  | 0, _, _, _ => none
  | fuel + 1, env, p, st =>
    match p with
    | .nil => some st
    | .read k rest =>
      match readSignal k st with
      | none => none
      | some (_, st') => execProg fuel env rest st'
    | .branch k thn els =>
      match readSignal k st with
      | none => none
      | some (v, st') => execProg fuel env (if v = 0 then els else thn) st'
    | .write k v rest =>
      match setSignal fuel env k v st with
      | none => none
      | some st' => execProg fuel env rest st'
    | .untrack inner rest =>
      match execProg fuel env inner { st with current := none } with
      | none => none
      | some st1 => execProg fuel env rest { st1 with current := st.current }

/-- Embeds `RwSignal::set`: replace the stored value, snapshot the
subscribers, then run each of them. -/
def setSignal : Nat → Env → SignalKey → Val → St → Option St
  | 0, _, _, _, _ => none
  | fuel + 1, env, k, v, st =>
    match alookup st.signals k with
    | none => none
    | some sig => runEffects fuel env sig.subscribers (writeValue k v st)

/-- Embeds the `for subscriber in subscribers { subscriber.run(runtime) }`
loop of `RwSignal::set`. -/
def runEffects : Nat → Env → List EffectId → St → Option St
  | 0, _, _, _ => none
  | fuel + 1, env, es, st =>
    match es with
    | [] => some st
    | e :: rest =>
      match runEffect fuel env e st with
      | none => none
      | some st' => runEffects fuel env rest st'

/-- Embeds `Effect::run`: unsubscribe from every previously observed signal,
mark the effect current, run the closure, then set `current_effect` to
`None`. -/
def runEffect : Nat → Env → EffectId → St → Option St
  | 0, _, _, _ => none
  | fuel + 1, env, e, st =>
    match execProg fuel env (env.body e) ({ clearSubscriptions e st with current := some e }) with
    | none => none
    | some st3 => some { st3 with current := none }

end

/-- The runtime's bookkeeping invariant: an effect is subscribed to a signal
exactly when that signal is among the effect's tracked reads since its last
run started, and a signal's subscriber list (hash-map key set) has no
duplicates. -/
def Wf (st : St) : Prop :=
  (∀ k e, e ∈ subscribersOf st k ↔ k ∈ observersOf st e) ∧
  (∀ k, (subscribersOf st k).Nodup)

/-! ## Sample states used to exercise the definitions -/

/-- Environment in which every effect closure is the empty program. -/
def env0 : Env := ⟨fun _ => .nil⟩

/-- A runtime state with one signal (key 0, value 0) whose subscriber is
effect 7, which observed signal 0 during its last run. -/
def stA : St := ⟨[(0, ⟨0, [7]⟩)], [(7, [0])], none⟩

/-- The state after re-running effect 7 (whose closure reads nothing) from
`stA`: effect 7 is unsubscribed everywhere and observes nothing. -/
def stA2 : St := ⟨[(0, ⟨0, []⟩)], [(7, [])], none⟩

/-- An empty runtime state in which effect 9 is marked current. -/
def stB : St := ⟨[], [], some 9⟩

/-- An empty runtime state with no current effect. -/
def stB2 : St := ⟨[], [], none⟩

/-- A window with a non-empty focus chain and nothing focused. -/
def rootA : WindowRoot :=
  { focus := none, focus_chain := [1, 2, 3], ime_handlers := [],
    ime_focus_change := none, timers := [], size := ⟨0, 0⟩, last_mouse_pos := none }

/-- A window with focus chain `[10, 20, 30]` and widget 20 focused. -/
def rootB : WindowRoot :=
  { focus := some 20, focus_chain := [10, 20, 30], ime_handlers := [],
    ime_focus_change := none, timers := [], size := ⟨0, 0⟩, last_mouse_pos := none }

/-- A window with focus chain `[10, 20, 30]` and the last widget focused. -/
def rootC : WindowRoot :=
  { focus := some 30, focus_chain := [10, 20, 30], ime_handlers := [],
    ime_focus_change := none, timers := [], size := ⟨0, 0⟩, last_mouse_pos := none }

/-! ## Support lemmas -/

theorem alookup_aset {α β : Type} [DecidableEq α] (l : List (α × β)) (x y : α) (b : β) :
    alookup (aset l x b) y = if y = x then some b else alookup l y := by
  induction l with
  | nil => simp [aset, alookup]
  | cons hd tl ih =>
    obtain ⟨a, c⟩ := hd
    by_cases hxa : x = a
    · subst hxa
      by_cases hyx : y = x <;> simp [aset, alookup, hyx]
    · by_cases hyx : y = x <;> by_cases hya : y = a <;>
        simp_all [aset, alookup]

theorem position_eq_none {l : List WidgetId} {f : WidgetId} (h : f ∉ l) :
    position f l = none := by
  induction l with
  | nil => rfl
  | cons a tl ih =>
    simp only [List.mem_cons, not_or] at h
    simp [position, Ne.symm h.1, ih h.2]

theorem position_lt_length {l : List WidgetId} {f : WidgetId} {idx : Nat}
    (h : position f l = some idx) : idx < l.length := by
  induction l generalizing idx with
  | nil => simp [position] at h
  | cons a tl ih =>
    simp only [position] at h
    by_cases ha : a == f
    · simp [ha] at h
      simp only [List.length_cons]
      omega
    · simp [ha, Option.map_eq_some'] at h
      obtain ⟨j, hj, rfl⟩ := h
      have := ih hj
      simp only [List.length_cons]
      omega

theorem subscribersOf_of_lookup {st : St} {k : SignalKey} {sig : SignalSt}
    (h : alookup st.signals k = some sig) : subscribersOf st k = sig.subscribers := by
  simp [subscribersOf, h]

theorem subscribersOf_of_lookup_none {st : St} {k : SignalKey}
    (h : alookup st.signals k = none) : subscribersOf st k = [] := by
  simp [subscribersOf, h]

theorem writeValue_observers (k : SignalKey) (v : Val) (st : St) :
    (writeValue k v st).observers = st.observers := by
  unfold writeValue
  cases alookup st.signals k <;> rfl

theorem writeValue_current (k : SignalKey) (v : Val) (st : St) :
    (writeValue k v st).current = st.current := by
  unfold writeValue
  cases alookup st.signals k <;> rfl

theorem subscribersOf_writeValue (k : SignalKey) (v : Val) (st : St) (k' : SignalKey) :
    subscribersOf (writeValue k v st) k' = subscribersOf st k' := by
  unfold writeValue
  cases h : alookup st.signals k with
  | none => rfl
  | some sig =>
    by_cases hk : k' = k
    · subst hk
      simp [subscribersOf, alookup_aset, subscribersOf_of_lookup h, h]
    · simp [subscribersOf, alookup_aset, hk]

theorem observersOf_writeValue (k : SignalKey) (v : Val) (st : St) (e : EffectId) :
    observersOf (writeValue k v st) e = observersOf st e := by
  simp [observersOf, writeValue_observers]

theorem lookup_writeValue {st : St} {k : SignalKey} {sig : SignalSt}
    (h : alookup st.signals k = some sig) :
    alookup (writeValue k v st).signals k = some { sig with value := v } := by
  simp [writeValue, h, alookup_aset]

theorem removeSub_observers (e : EffectId) (st : St) (k : SignalKey) :
    (removeSub e st k).observers = st.observers := by
  unfold removeSub
  cases alookup st.signals k <;> rfl

theorem removeSub_current (e : EffectId) (st : St) (k : SignalKey) :
    (removeSub e st k).current = st.current := by
  unfold removeSub
  cases alookup st.signals k <;> rfl

theorem subscribersOf_removeSub (e : EffectId) (st : St) (k k' : SignalKey) :
    subscribersOf (removeSub e st k) k' =
      if k' = k then (subscribersOf st k').filter (fun x => x != e)
      else subscribersOf st k' := by
  unfold removeSub
  cases h : alookup st.signals k with
  | none =>
    by_cases hk : k' = k
    · subst hk
      simp [subscribersOf_of_lookup_none h]
    · simp [hk]
  | some sig =>
    by_cases hk : k' = k
    · subst hk
      simp [subscribersOf, alookup_aset, subscribersOf_of_lookup h, h]
    · simp [subscribersOf, alookup_aset, hk]

theorem foldl_removeSub_observers (e : EffectId) (ks : List SignalKey) (st : St) :
    (ks.foldl (removeSub e) st).observers = st.observers := by
  induction ks generalizing st with
  | nil => rfl
  | cons k tl ih => simp [List.foldl_cons, ih, removeSub_observers]

theorem foldl_removeSub_current (e : EffectId) (ks : List SignalKey) (st : St) :
    (ks.foldl (removeSub e) st).current = st.current := by
  induction ks generalizing st with
  | nil => rfl
  | cons k tl ih => simp [List.foldl_cons, ih, removeSub_current]

theorem subscribersOf_foldl_removeSub (e : EffectId) (ks : List SignalKey) (st : St)
    (k' : SignalKey) :
    subscribersOf (ks.foldl (removeSub e) st) k' =
      if k' ∈ ks then (subscribersOf st k').filter (fun x => x != e)
      else subscribersOf st k' := by
  induction ks generalizing st with
  | nil => simp
  | cons k tl ih =>
    rw [List.foldl_cons, ih, subscribersOf_removeSub]
    by_cases hk : k' = k
    · subst hk
      by_cases hmem : k' ∈ tl <;>
        simp [hmem, List.filter_filter]
    · by_cases hmem : k' ∈ tl <;> simp [hmem, hk]

theorem clearSubscriptions_current (e : EffectId) (st : St) :
    (clearSubscriptions e st).current = st.current := by
  simp [clearSubscriptions, foldl_removeSub_current]

theorem observersOf_clearSubscriptions (e : EffectId) (st : St) (e' : EffectId) :
    observersOf (clearSubscriptions e st) e' =
      if e' = e then [] else observersOf st e' := by
  unfold clearSubscriptions
  by_cases he : e' = e
  · subst he
    simp [observersOf, alookup_aset]
  · simp [observersOf, alookup_aset, he, foldl_removeSub_observers]

theorem subscribersOf_clearSubscriptions (e : EffectId) (st : St) (k' : SignalKey) :
    subscribersOf (clearSubscriptions e st) k' =
      if k' ∈ observersOf st e then (subscribersOf st k').filter (fun x => x != e)
      else subscribersOf st k' := by
  unfold clearSubscriptions
  rw [show subscribersOf
      { (observersOf st e).foldl (removeSub e) st with
        observers := aset ((observersOf st e).foldl (removeSub e) st).observers e [] } k' =
      subscribersOf ((observersOf st e).foldl (removeSub e) st) k' from rfl]
  exact subscribersOf_foldl_removeSub e (observersOf st e) st k'

theorem Wf_current (st : St) (c : Option EffectId) :
    Wf { st with current := c } ↔ Wf st := Iff.rfl

theorem Wf_writeValue {st : St} (hwf : Wf st) (k : SignalKey) (v : Val) :
    Wf (writeValue k v st) := by
  obtain ⟨hiff, hnd⟩ := hwf
  constructor
  · intro k' e
    rw [subscribersOf_writeValue, observersOf_writeValue]
    exact hiff k' e
  · intro k'
    rw [subscribersOf_writeValue]
    exact hnd k'

theorem Wf_clearSubscriptions {st : St} (hwf : Wf st) (e : EffectId) :
    Wf (clearSubscriptions e st) := by
  obtain ⟨hiff, hnd⟩ := hwf
  constructor
  · intro k' e'
    rw [subscribersOf_clearSubscriptions, observersOf_clearSubscriptions]
    by_cases he : e' = e
    · subst he
      by_cases hk : k' ∈ observersOf st e'
      · simp [hk, List.mem_filter]
      · simp [hk, hiff k' e']
    · by_cases hk : k' ∈ observersOf st e
      · simp [hk, he, List.mem_filter, bne_iff_ne, hiff k' e']
      · simp [hk, he, hiff k' e']
  · intro k'
    rw [subscribersOf_clearSubscriptions]
    by_cases hk : k' ∈ observersOf st e
    · simp only [hk, if_true]
      exact (hnd k').filter _
    · simpa [hk] using hnd k'

theorem readSignal_of_current_none {st : St} {k : SignalKey} {sig : SignalSt}
    (hsig : alookup st.signals k = some sig) (hcur : st.current = none) :
    readSignal k st = some (sig.value, st) := by
  simp [readSignal, hsig, hcur]

theorem subscribersOf_record (X : List (SignalKey × SignalSt))
    (Y : List (EffectId × List SignalKey)) (Z : Option EffectId) (k' : SignalKey) :
    subscribersOf ⟨X, Y, Z⟩ k' = ((alookup X k').map SignalSt.subscribers).getD [] := rfl

theorem observersOf_record (X : List (SignalKey × SignalSt))
    (Y : List (EffectId × List SignalKey)) (Z : Option EffectId) (e' : EffectId) :
    observersOf ⟨X, Y, Z⟩ e' = (alookup Y e').getD [] := rfl

theorem readSignal_current {st st' : St} {k : SignalKey} {v : Val}
    (h : readSignal k st = some (v, st')) : st'.current = st.current := by
  unfold readSignal at h
  cases hsig : alookup st.signals k with
  | none => rw [hsig] at h; exact absurd h (by simp)
  | some sig =>
    rw [hsig] at h
    cases hcur : st.current with
    | none =>
      rw [hcur] at h
      simp only [Option.some.injEq, Prod.mk.injEq] at h
      rw [← h.2, hcur]
    | some e =>
      rw [hcur] at h
      simp only [Option.some.injEq, Prod.mk.injEq] at h
      rw [← h.2]

theorem Wf_readSignal {st st' : St} {k : SignalKey} {v : Val}
    (hwf : Wf st) (h : readSignal k st = some (v, st')) : Wf st' := by
  obtain ⟨hiff, hnd⟩ := hwf
  unfold readSignal at h
  cases hsig : alookup st.signals k with
  | none => rw [hsig] at h; exact absurd h (by simp)
  | some sig =>
    rw [hsig] at h
    cases hcur : st.current with
    | none =>
      rw [hcur] at h
      simp only [Option.some.injEq, Prod.mk.injEq] at h
      rw [← h.2]
      exact ⟨hiff, hnd⟩
    | some e =>
      rw [hcur] at h
      simp only [Option.some.injEq, Prod.mk.injEq] at h
      obtain ⟨hv, hst⟩ := h
      have hsubs : subscribersOf st k = sig.subscribers := subscribersOf_of_lookup hsig
      rw [← hst]
      constructor
      · intro k' e'
        rw [subscribersOf_record, observersOf_record, alookup_aset, alookup_aset]
        by_cases hk : k' = k <;> by_cases he : e' = e
        · rw [hk, he]
          simp only [if_pos rfl, Option.map_some', Option.getD_some]
          by_cases hmem : e ∈ sig.subscribers <;> simp [hmem]
        · rw [hk]
          simp only [if_pos rfl, if_neg he, Option.map_some', Option.getD_some]
          have hx := hiff k e'
          rw [hsubs] at hx
          by_cases hmem : e ∈ sig.subscribers
          · rw [if_pos hmem]
            exact hx
          · rw [if_neg hmem]
            simpa [he] using hx
        · rw [he]
          simp only [if_neg hk, if_pos rfl, Option.getD_some]
          have hx := hiff k' e
          simpa [hk] using hx
        · simp only [if_neg hk, if_neg he]
          exact hiff k' e'
      · intro k'
        rw [subscribersOf_record, alookup_aset]
        by_cases hk : k' = k
        · simp only [hk, if_pos rfl, Option.map_some', Option.getD_some]
          have hknd := hnd k
          rw [hsubs] at hknd
          by_cases hmem : e ∈ sig.subscribers
          · simpa [hmem] using hknd
          · simp [hmem, List.nodup_append, hknd]
        · simp only [if_neg hk]
          rw [show ((alookup st.signals k').map SignalSt.subscribers).getD [] =
              subscribersOf st k' from rfl]
          exact hnd k'

/-- Execution preserves the subscriber/observer bookkeeping invariant, for
all four mutually recursive entry points. -/
theorem wf_preserved (fuel : Nat) (env : Env) :
    (∀ p st st', Wf st → execProg fuel env p st = some st' → Wf st') ∧
    (∀ k v st st', Wf st → setSignal fuel env k v st = some st' → Wf st') ∧
    (∀ es st st', Wf st → runEffects fuel env es st = some st' → Wf st') ∧
    (∀ e st st', Wf st → runEffect fuel env e st = some st' → Wf st') := by
  induction fuel with
  | zero =>
    refine ⟨?_, ?_, ?_, ?_⟩
    · intro p st st' _ h; simp [execProg] at h
    · intro k v st st' _ h; simp [setSignal] at h
    · intro es st st' _ h; simp [runEffects] at h
    · intro e st st' _ h; simp [runEffect] at h
  | succ fuel ih =>
    obtain ⟨ihP, ihS, ihL, ihE⟩ := ih
    refine ⟨?_, ?_, ?_, ?_⟩
    · intro p st st' hwf h
      cases p with
      | nil =>
        simp only [execProg, Option.some.injEq] at h
        rwa [← h]
      | read k rest =>
        simp only [execProg] at h
        cases hr : readSignal k st with
        | none => rw [hr] at h; simp at h
        | some pr =>
          obtain ⟨v, st1⟩ := pr
          rw [hr] at h
          simp only at h
          exact ihP rest st1 st' (Wf_readSignal hwf hr) h
      | branch k thn els =>
        simp only [execProg] at h
        cases hr : readSignal k st with
        | none => rw [hr] at h; simp at h
        | some pr =>
          obtain ⟨v, st1⟩ := pr
          rw [hr] at h
          simp only at h
          exact ihP _ st1 st' (Wf_readSignal hwf hr) h
      | write k v rest =>
        simp only [execProg] at h
        cases hs : setSignal fuel env k v st with
        | none => rw [hs] at h; simp at h
        | some st1 =>
          rw [hs] at h
          simp only at h
          exact ihP rest st1 st' (ihS k v st st1 hwf hs) h
      | untrack inner rest =>
        simp only [execProg] at h
        cases h1 : execProg fuel env inner { st with current := none } with
        | none => rw [h1] at h; simp at h
        | some st1 =>
          rw [h1] at h
          simp only at h
          have hwf1 : Wf st1 := ihP inner { st with current := none } st1 hwf h1
          exact ihP rest { st1 with current := st.current } st' hwf1 h
    · intro k v st st' hwf h
      simp only [setSignal] at h
      cases hs : alookup st.signals k with
      | none => rw [hs] at h; simp at h
      | some sig =>
        rw [hs] at h
        simp only at h
        exact ihL sig.subscribers (writeValue k v st) st' (Wf_writeValue hwf k v) h
    · intro es st st' hwf h
      cases es with
      | nil =>
        simp only [runEffects, Option.some.injEq] at h
        rwa [← h]
      | cons e rest =>
        simp only [runEffects] at h
        cases he : runEffect fuel env e st with
        | none => rw [he] at h; simp at h
        | some st1 =>
          rw [he] at h
          simp only at h
          exact ihL rest st1 st' (ihE e st st1 hwf he) h
    · intro e st st' hwf h
      simp only [runEffect] at h
      cases h1 : execProg fuel env (env.body e)
          ({ clearSubscriptions e st with current := some e }) with
      | none => rw [h1] at h; simp at h
      | some st3 =>
        rw [h1] at h
        simp only [Option.some.injEq] at h
        have hwf3 : Wf st3 :=
          ihP (env.body e) ({ clearSubscriptions e st with current := some e }) st3
            (Wf_clearSubscriptions hwf e) h1
        rw [← h]
        exact hwf3

theorem runEffect_current {fuel : Nat} {env : Env} {e : EffectId} {st st' : St}
    (h : runEffect fuel env e st = some st') : st'.current = none := by
  cases fuel with
  | zero => simp [runEffect] at h
  | succ fuel =>
    simp only [runEffect] at h
    cases h1 : execProg fuel env (env.body e)
        ({ clearSubscriptions e st with current := some e }) with
    | none => rw [h1] at h; simp at h
    | some st3 =>
      rw [h1] at h
      simp only [Option.some.injEq] at h
      rw [← h]

theorem runEffects_cons_current :
    ∀ (fuel : Nat) (env : Env) (e : EffectId) (es : List EffectId) (st st' : St),
      runEffects fuel env (e :: es) st = some st' → st'.current = none := by
  intro fuel
  induction fuel with
  | zero => intro env e es st st' h; simp [runEffects] at h
  | succ fuel ih =>
    intro env e es st st' h
    simp only [runEffects] at h
    cases he : runEffect fuel env e st with
    | none => rw [he] at h; simp at h
    | some st1 =>
      rw [he] at h
      simp only at h
      cases es with
      | nil =>
        cases fuel with
        | zero => simp [runEffects] at h
        | succ fuel2 =>
          simp only [runEffects, Option.some.injEq] at h
          rw [← h]
          exact runEffect_current he
      | cons e2 rest => exact ih env e2 rest st1 st' h

theorem execProg_untrack {fuel : Nat} {env : Env} {inner : Prog} {st st1 : St}
    (rest : Prog) (h : execProg fuel env inner ({ st with current := none }) = some st1) :
    execProg (fuel + 1) env (.untrack inner rest) st =
      execProg fuel env rest ({ st1 with current := st.current }) := by
  simp only [execProg, h]

theorem bloom_testBit_foldl (hashes : List (WidgetId → Nat)) (l : List WidgetId)
    (b : Bloom) (i : Nat) (h : b.bits.testBit i = true) :
    (l.foldl (Bloom.add hashes) b).bits.testBit i = true := by
  induction l generalizing b with
  | nil => exact h
  | cons a tl ih =>
    apply ih
    simp [Bloom.add, Nat.testBit_lor, h]

theorem bloom_mem_testBit (hashes : List (WidgetId → Nat)) (l : List WidgetId)
    (b : Bloom) (id : WidgetId) (hid : id ∈ l) (i : Nat)
    (h : (bloom_mask hashes id).testBit i = true) :
    (l.foldl (Bloom.add hashes) b).bits.testBit i = true := by
  induction l generalizing b with
  | nil => cases hid
  | cons a tl ih =>
    rw [List.foldl_cons]
    rcases List.mem_cons.mp hid with rfl | hid2
    · apply bloom_testBit_foldl
      simp [Bloom.add, Nat.testBit_lor, h]
    · exact ih _ hid2

theorem may_contain_of_mem (hashes : List (WidgetId → Nat)) (l : List WidgetId)
    (id : WidgetId) (hid : id ∈ l) :
    (bloom_of hashes l).may_contain hashes id = true := by
  unfold Bloom.may_contain bloom_of
  rw [beq_iff_eq]
  apply Nat.eq_of_testBit_eq
  intro i
  rw [Nat.testBit_land]
  by_cases hbit : (bloom_mask hashes id).testBit i = true
  · simp [hbit, bloom_mem_testBit hashes l Bloom.empty id hid i hbit]
  · simp [Bool.eq_false_iff.mpr hbit]

/-! ## Claims -/

/-- C3, counterexample: the claim says that with no widget focused and a
non-empty focus chain `[1, 2, 3]`, a `next` (resp. `previous`) request
resolves to the first (resp. last) entry.  In the code,
`widget_from_focus_chain` starts with `self.focus.and_then`, so with
`focus == None` both requests resolve to `None` — not to entries 1 resp. 3. -/
theorem widget_from_focus_chain_no_focus_counterexample :
    rootA.widget_for_focus_request .next = none ∧
    rootA.widget_for_focus_request .next ≠ some 1 ∧
    rootA.widget_for_focus_request .previous = none ∧
    rootA.widget_for_focus_request .previous ≠ some 3 := by decide

/-- C3, amended: while no widget is focused, `next`/`previous` requests
resolve to no widget at all; the first/last-entry fallback applies only when
a focused id is set but absent from the focus chain. -/
theorem widget_from_focus_chain_no_focus (w w₂ : WindowRoot) (f : WidgetId)
    (h : w.focus = none) (h₂ : w₂.focus = some f) (hf : f ∉ w₂.focus_chain) :
    w.widget_for_focus_request .next = none ∧
    w.widget_for_focus_request .previous = none ∧
    w₂.widget_for_focus_request .next = w₂.focus_chain.head? ∧
    w₂.widget_for_focus_request .previous = w₂.focus_chain.getLast? := by
  refine ⟨?_, ?_, ?_, ?_⟩ <;>
    simp [WindowRoot.widget_for_focus_request, WindowRoot.widget_from_focus_chain,
      h, h₂, position_eq_none hf, Option.orElse]

/-- C3, witness: `rootA` has no focus and chain `[1, 2, 3]`; a window focused
on an id (99) outside its chain falls back to first/last. -/
theorem widget_from_focus_chain_no_focus_witness :
    rootA.widget_for_focus_request .next = none ∧
    rootA.widget_for_focus_request .previous = none ∧
    ({ rootA with focus := some 99 } : WindowRoot).widget_for_focus_request .next =
      ({ rootA with focus := some 99 } : WindowRoot).focus_chain.head? ∧
    ({ rootA with focus := some 99 } : WindowRoot).widget_for_focus_request .previous =
      ({ rootA with focus := some 99 } : WindowRoot).focus_chain.getLast? := by
  have h := widget_from_focus_chain_no_focus rootA ({ rootA with focus := some 99 }) 99
    (by decide) (by decide) (by decide)
  exact ⟨h.1, h.2.1, h.2.2.1, h.2.2.2⟩

/-- C4: with a focused id sitting at index `idx` of the (non-empty) focus
chain, a `next` request resolves to the entry at `(idx + 1) % len` and a
`previous` request to the entry at `(idx + len - 1) % len`, both indices in
bounds. -/
theorem widget_from_focus_chain_cyclic (w : WindowRoot) (f : WidgetId) (idx : Nat)
    (h : w.focus = some f) (hidx : position f w.focus_chain = some idx) :
    w.widget_from_focus_chain true =
      some (w.focus_chain.getD ((idx + 1) % w.focus_chain.length) 0) ∧
    w.widget_from_focus_chain false =
      some (w.focus_chain.getD
        ((idx + w.focus_chain.length - 1) % w.focus_chain.length) 0) ∧
    (idx + 1) % w.focus_chain.length < w.focus_chain.length ∧
    (idx + w.focus_chain.length - 1) % w.focus_chain.length <
      w.focus_chain.length := by
  have hlen : 0 < w.focus_chain.length := Nat.lt_of_le_of_lt (Nat.zero_le idx)
    (position_lt_length hidx)
  refine ⟨?_, ?_, Nat.mod_lt _ hlen, Nat.mod_lt _ hlen⟩ <;>
    simp [WindowRoot.widget_from_focus_chain, h, hidx, Option.orElse]

/-- C4, witness: chain `[10, 20, 30]`; with 20 focused, `next` resolves to
30; with 30 focused, `next` wraps around to 10. -/
theorem widget_from_focus_chain_cyclic_witness :
    (rootB.widget_from_focus_chain true =
      some (rootB.focus_chain.getD ((1 + 1) % rootB.focus_chain.length) 0) ∧
    rootB.widget_from_focus_chain true = some 30) ∧
    (rootC.widget_from_focus_chain true =
      some (rootC.focus_chain.getD ((2 + 1) % rootC.focus_chain.length) 0) ∧
    rootC.widget_from_focus_chain true = some 10) := by
  have hb := widget_from_focus_chain_cyclic rootB 20 1 (by decide) (by decide)
  have hc := widget_from_focus_chain_cyclic rootC 30 2 (by decide) (by decide)
  exact ⟨⟨hb.1, by decide⟩, ⟨hc.1, by decide⟩⟩

/-- C5: when a pending focus request resolves to the currently focused id,
`update_focus` dispatches no `RouteFocusChanged` event and leaves the window
unchanged; when it resolves to a different id, it dispatches
`RouteFocusChanged { old, new }` and sets the focus field to the new id. -/
theorem update_focus_noop_suppressed (w w₂ : WindowRoot) (req req₂ : FocusChange)
    (heq : w.widget_for_focus_request req = w.focus)
    (hne : w₂.widget_for_focus_request req₂ ≠ w₂.focus) :
    w.update_focus (some req) = (w, none) ∧
    (w₂.update_focus (some req₂)).2 =
      some (w₂.focus, w₂.widget_for_focus_request req₂) ∧
    (w₂.update_focus (some req₂)).1.focus = w₂.widget_for_focus_request req₂ := by
  have hne2 : ¬(w₂.focus = w₂.widget_for_focus_request req₂) := fun h => hne h.symm
  refine ⟨?_, ?_, ?_⟩
  · simp [WindowRoot.update_focus, heq]
  · simp [WindowRoot.update_focus, hne2]
  · simp [WindowRoot.update_focus, hne2]

/-- C5, witness: on `rootB` (focus 20, chain `[10, 20, 30]`), requesting
focus on 20 is a suppressed no-op, while `next` (resolving to 30) fires the
event and moves the focus field. -/
theorem update_focus_noop_suppressed_witness :
    rootB.update_focus (some (.focus 20)) = (rootB, none) ∧
    (rootB.update_focus (some .next)).2 =
      some (rootB.focus, rootB.widget_for_focus_request .next) ∧
    (rootB.update_focus (some .next)).1.focus =
      rootB.widget_for_focus_request .next :=
  update_focus_noop_suppressed rootB rootB (.focus 20) .next (by decide) (by decide)

/-- C6: an `Event::Timer` whose token has no entry in the window's timer map
is dropped: an error is logged, `WindowRoot::event` returns `Handled::No`,
and no event is delegated to the root widget (derived state is untouched, so
processing continues normally afterwards). -/
theorem event_unknown_timer_dropped (w : WindowRoot) (token : TimerToken)
    (h : alookup w.timers token = none) :
    w.handle_event (.timer token) =
      { window := w, delivered := none, logged_error := true,
        early_result := some .no } := by
  simp [WindowRoot.handle_event, h]

/-- C6, witness: `rootB` has an empty timer map, so token 5 is unknown. -/
theorem event_unknown_timer_dropped_witness :
    rootB.handle_event (.timer 5) =
      { window := rootB, delivered := none, logged_error := true,
        early_result := some .no } :=
  event_unknown_timer_dropped rootB 5 (by decide)

/-- C7: applying an `update_widget::<W>` command to a widget whose concrete
type is not `W` panics with the descriptive message naming both the expected
and the found type; on a matching type the mutator runs on the widget. -/
theorem update_widget_downcast (expected : String) (f : Nat → Nat)
    (wgt wgt₂ : AnyWidget) (hne : wgt.ty ≠ expected) (heq : wgt₂.ty = expected) :
    update_widget_apply expected f wgt =
      .panicked ("expected to update widget with type `" ++ expected ++
        "`, but found `" ++ wgt.ty ++ "` in the widget tree") ∧
    update_widget_apply expected f wgt₂ = .applied (f wgt₂.payload) := by
  constructor
  · simp [update_widget_apply, hne]
  · simp [update_widget_apply, heq]

/-- C7, witness: updating a widget of concrete type `Button` as a `Label`
panics with the message naming both; updating a `Label` applies the
mutator. -/
theorem update_widget_downcast_witness :
    update_widget_apply "Label" (fun n => n + 1) ⟨"Button", 3⟩ =
      .panicked ("expected to update widget with type `" ++ "Label" ++
        "`, but found `" ++ (⟨"Button", 3⟩ : AnyWidget).ty ++
        "` in the widget tree") ∧
    update_widget_apply "Label" (fun n => n + 1) ⟨"Label", 4⟩ =
      .applied ((fun n => n + 1) (⟨"Label", 4⟩ : AnyWidget).payload) :=
  update_widget_downcast "Label" (fun n => n + 1) ⟨"Button", 3⟩ ⟨"Label", 4⟩
    (by decide) (by decide)

/-- C8: a `SizedBox` with `width = Some(200.0)`, `height = None`, given
parent constraints `min = (0, 0)`, `max = (400, 400)`, produces child
constraints `min = (200, 0)`, `max = (200, 400)`. -/
theorem sized_box_child_constraints_scenario :
    SizedBox.child_constraints ⟨some 200, none⟩
        (BoxConstraints.new ⟨0, 0⟩ ⟨400, 400⟩) =
      BoxConstraints.new ⟨200, 0⟩ ⟨200, 400⟩ := by decide

/-- C9: `may_contain_widget` never reports a false negative: every id in the
window (the root's own id, or any descendant inserted into the root state's
filter) makes it return `true` — so a `false` answer means the widget is
definitely not in this window.  False positives remain possible, as the
contract allows. -/
theorem may_contain_widget_no_false_negatives (hashes : List (WidgetId → Nat))
    (t : WindowTree) (id : WidgetId)
    (hmem : id = t.root_id ∨ id ∈ t.descendants) :
    may_contain_widget hashes t id = true ∧
    may_contain_widget hashes t t.root_id = true := by
  constructor
  · rcases hmem with rfl | hmem2
    · simp [may_contain_widget]
    · unfold may_contain_widget
      rw [Bool.or_eq_true]
      exact Or.inr (may_contain_of_mem hashes t.descendants id hmem2)
  · simp [may_contain_widget]

/-- C9, witness: a window with root id 1 and descendants `[2, 3]`, with the
identity as the single hash function: id 2 is reported as possibly
contained, as is the root's own id. -/
theorem may_contain_widget_no_false_negatives_witness :
    may_contain_widget [fun n => n] ⟨1, [2, 3]⟩ 2 = true ∧
    may_contain_widget [fun n => n] ⟨1, [2, 3]⟩ (1 : WidgetId) = true := by
  have h := may_contain_widget_no_false_negatives [fun n => n] ⟨1, [2, 3]⟩ 2
    (Or.inr (by decide))
  exact ⟨h.1, h.2⟩

theorem Wf_stA : Wf stA := by
  constructor
  · intro k e
    by_cases hk : k = 0 <;> by_cases he : e = 7 <;>
      simp [stA, subscribersOf, observersOf, alookup, hk, he]
  · intro k
    by_cases hk : k = 0 <;> simp [stA, subscribersOf, alookup, hk]

theorem Wf_stA2 : Wf stA2 := by
  constructor
  · intro k e
    by_cases hk : k = 0 <;> by_cases he : e = 7 <;>
      simp [stA2, subscribersOf, observersOf, alookup, hk, he]
  · intro k
    by_cases hk : k = 0 <;> simp [stA2, subscribersOf, alookup, hk]

/-- C1: `RwSignal::set` first replaces the stored value and only then
synchronously re-runs the effects subscribed at the moment of the call, each
exactly once (the snapshot is the signal's duplicate-free subscriber set),
and under the runtime invariant those subscribers are exactly the effects
whose tracked reads since their last run started (`observers`) include this
signal. -/
theorem RwSignal_set_runs_subscribers (fuel : Nat) (env : Env) (k : SignalKey)
    (v : Val) (st : St) (sig : SignalSt) (e₁ : EffectId)
    (hwf : Wf st) (hsig : alookup st.signals k = some sig) :
    setSignal (fuel + 1) env k v st =
      runEffects fuel env sig.subscribers (writeValue k v st) ∧
    alookup (writeValue k v st).signals k = some { sig with value := v } ∧
    sig.subscribers.Nodup ∧
    (e₁ ∈ sig.subscribers ↔ k ∈ observersOf st e₁) := by
  refine ⟨?_, lookup_writeValue hsig, ?_, ?_⟩
  · simp [setSignal, hsig]
  · have h := hwf.2 k
    rwa [subscribersOf_of_lookup hsig] at h
  · have h := hwf.1 k e₁
    rwa [subscribersOf_of_lookup hsig] at h

/-- C1, witness: setting signal 0 of `stA` to 5 writes the value first and
then runs precisely the subscriber list `[7]`, effect 7 being the one whose
last run read signal 0. -/
theorem RwSignal_set_runs_subscribers_witness :
    setSignal 2 env0 0 5 stA = runEffects 1 env0 [7] (writeValue 0 5 stA) ∧
    alookup (writeValue 0 5 stA).signals 0 = some ⟨5, [7]⟩ ∧
    ([7] : List EffectId).Nodup ∧
    ((7 : EffectId) ∈ ([7] : List EffectId) ↔ (0 : SignalKey) ∈ observersOf stA 7) :=
  RwSignal_set_runs_subscribers 1 env0 0 5 stA ⟨0, [7]⟩ 7 Wf_stA (by decide)

/-- C2: re-running an effect first unsubscribes it from every signal it
observed during its previous run (and empties its observer list), then
executes its closure with the effect marked current; the bookkeeping
invariant is preserved, and in any well-formed state in which the effect's
latest run did not (tracked-)read a signal, the effect is not among that
signal's subscribers, so a later `set` of that signal re-runs only the
subscriber snapshot — a list not containing the effect. -/
theorem Effect_run_unsubscribe_resubscribe (fuel g : Nat) (env : Env)
    (e : EffectId) (k₁ k₂ : SignalKey) (v : Val) (st st₂ st₃ : St) (sig₃ : SignalSt)
    (hwf : Wf st)
    (hrun : runEffect (fuel + 1) env e st = some st₂)
    (hwf₃ : Wf st₃)
    (hno : k₂ ∉ observersOf st₃ e)
    (hsig₃ : alookup st₃.signals k₂ = some sig₃) :
    e ∉ subscribersOf (clearSubscriptions e st) k₁ ∧
    observersOf (clearSubscriptions e st) e = [] ∧
    runEffect (fuel + 1) env e st =
      (execProg fuel env (env.body e)
        ({ clearSubscriptions e st with current := some e })).map
        (fun st3 => { st3 with current := none }) ∧
    Wf st₂ ∧
    e ∉ sig₃.subscribers ∧
    setSignal (g + 1) env k₂ v st₃ =
      runEffects g env sig₃.subscribers (writeValue k₂ v st₃) := by
  refine ⟨?_, ?_, ?_, ?_, ?_, ?_⟩
  · rw [subscribersOf_clearSubscriptions]
    by_cases hk : k₁ ∈ observersOf st e
    · simp [hk, List.mem_filter]
    · simp only [hk, if_neg hk]
      intro hmem
      exact hk ((hwf.1 k₁ e).mp hmem)
  · rw [observersOf_clearSubscriptions]
    simp
  · cases hx : execProg fuel env (env.body e)
        ({ clearSubscriptions e st with current := some e }) <;>
      simp [runEffect, hx]
  · exact (wf_preserved (fuel + 1) env).2.2.2 e st st₂ hwf hrun
  · intro hmem
    have h := hwf₃.1 k₂ e
    rw [subscribersOf_of_lookup hsig₃] at h
    exact hno (h.mp hmem)
  · simp [setSignal, hsig₃]

/-- C2, witness: re-running effect 7 from `stA` (where it was subscribed to
signal 0) first removes it from signal 0's subscribers and empties its
observer list; its closure reads nothing, so in the resulting state `stA2` a
further `set` of signal 0 runs the empty subscriber list — effect 7 is not
re-invoked. -/
theorem Effect_run_unsubscribe_resubscribe_witness :
    (7 : EffectId) ∉ subscribersOf (clearSubscriptions 7 stA) 0 ∧
    observersOf (clearSubscriptions 7 stA) 7 = [] ∧
    runEffect 2 env0 7 stA =
      (execProg 1 env0 (env0.body 7)
        ({ clearSubscriptions 7 stA with current := some 7 })).map
        (fun st3 => { st3 with current := none }) ∧
    Wf stA2 ∧
    (7 : EffectId) ∉ (⟨0, []⟩ : SignalSt).subscribers ∧
    setSignal 2 env0 0 5 stA2 =
      runEffects 1 env0 (⟨0, []⟩ : SignalSt).subscribers (writeValue 0 5 stA2) :=
  Effect_run_unsubscribe_resubscribe 1 1 env0 7 0 0 5 stA stA2 stA2 ⟨0, []⟩
    Wf_stA (by decide) Wf_stA2 (by decide) (by decide)

/-- C10: after any `Effect::run` returns, the runtime's `current_effect`
slot is `None`, whatever it held before — including after the subscriber
loop triggered by a nested signal write — whereas `untrack` restores the
previous current effect around its closure; and a tracked read performed
while no effect is current leaves the state unchanged (no subscription). -/
theorem Effect_run_clears_current
    (fuel g g₂ : Nat) (env env₂ env₃ : Env) (e e₂ : EffectId) (es : List EffectId)
    (inner rest : Prog) (k : SignalKey) (sig : SignalSt)
    (st st' st₂ st₃ st₄ st₅ st₆ : St)
    (hrun : runEffect fuel env e st = some st')
    (hruns : runEffects g env₂ (e₂ :: es) st₂ = some st₃)
    (hinner : execProg g₂ env₃ inner ({ st₄ with current := none }) = some st₅)
    (hcur : st₆.current = none)
    (hsig : alookup st₆.signals k = some sig) :
    st'.current = none ∧
    st₃.current = none ∧
    execProg (g₂ + 1) env₃ (.untrack inner rest) st₄ =
      execProg g₂ env₃ rest ({ st₅ with current := st₄.current }) ∧
    readSignal k st₆ = some (sig.value, st₆) :=
  ⟨runEffect_current hrun, runEffects_cons_current g env₂ e₂ es st₂ st₃ hruns,
   execProg_untrack rest hinner, readSignal_of_current_none hsig hcur⟩

/-- C10, witness: running effect 7 from `stA` ends with no current effect;
so does the subscriber loop for `[7]`; `untrack` around an empty closure in
`stB` (where effect 9 is current) resumes with effect 9 current; and a read
of signal 0 in `stA` (no current effect) leaves the state untouched. -/
theorem Effect_run_clears_current_witness :
    stA2.current = none ∧
    stA2.current = none ∧
    execProg 2 env0 (.untrack .nil .nil) stB =
      execProg 1 env0 .nil ({ stB2 with current := stB.current }) ∧
    readSignal 0 stA = some ((⟨0, [7]⟩ : SignalSt).value, stA) :=
  Effect_run_clears_current 2 3 1 env0 env0 env0 7 7 [] .nil .nil 0 ⟨0, [7]⟩
    stA stA2 stA stA2 stB stB2 stA
    (by decide) (by decide) (by decide) (by decide) (by decide)

end Masonry
